import Mathlib

/-!
Verification of the GKP reinforcement-learning environment
(`gkp_tf_env.py` / `oscillator_env.py`) against its natural-language
specification.  The batched tensorflow code is shallowly embedded:
per-batch-element operators become complex matrices over `Fin n`,
state vectors become functions `Fin n → ℂ`, and the stochastic
samplers (Bernoulli measurement outcome, `np.random.randint`) are
modelled by passing the sampled value (or a uniform natural-number
source) explicitly.
-/

open scoped Matrix ComplexConjugate
open Matrix

namespace GkpEnv

noncomputable section

abbrev Mat (n : ℕ) := Matrix (Fin n) (Fin n) ℂ

/-- Truncated annihilation operator, `qt.destroy(N)` in `define_operators`:
entry `sqrt(n+1)` at position `(n, n+1)`. -/
def annihilation (n : ℕ) : Mat n :=
  Matrix.of fun i j => if (i : ℕ) + 1 = (j : ℕ) then (Real.sqrt (j : ℕ) : ℂ) else 0

/-- Truncated creation operator, `qt.create(N)` in `define_operators`:
entry `sqrt(n+1)` at position `(n+1, n)`. -/
def creation (n : ℕ) : Mat n :=
  Matrix.of fun i j => if (i : ℕ) = (j : ℕ) + 1 then (Real.sqrt (i : ℕ) : ℂ) else 0

theorem creation_eq_conjTranspose (n : ℕ) : creation n = (annihilation n)ᴴ := by
  ext i j
  simp only [creation, annihilation, conjTranspose_apply, Matrix.of_apply]
  by_cases h : (i : ℕ) = (j : ℕ) + 1
  · rw [if_pos h, if_pos h.symm, h]
    simp
  · rw [if_neg h, if_neg (fun hc => h hc.symm)]
    simp

/-- Generator of the translation operator, the argument of `tf.linalg.expm`
in `OscillatorGKP.translate`:
`amplitude/sqrt(2)*a_dag - conj(amplitude)/sqrt(2)*a`. -/
def translateGen (n : ℕ) (amplitude : ℂ) : Mat n :=
  (amplitude / Real.sqrt 2) • creation n - (conj amplitude / Real.sqrt 2) • annihilation n

/-- `OscillatorGKP.translate`: batched phase-space translation operator,
per batch element the matrix exponential of `translateGen`. -/
def translate (n : ℕ) (amplitude : ℂ) : Mat n :=
  NormedSpace.exp ℂ (translateGen n amplitude)

/-- `OscillatorGKP.phase`: per-trajectory phase factor `expm(1j*phi)`
(a `1×1` matrix exponential, i.e. the scalar `exp(i·phi)`). -/
def phase (phi : ℝ) : ℂ :=
  Complex.exp (Complex.I * phi)

theorem translateGen_conjTranspose (n : ℕ) (amplitude : ℂ) :
    (translateGen n amplitude)ᴴ = -(translateGen n amplitude) := by
  simp only [translateGen, conjTranspose_sub, conjTranspose_smul,
    creation_eq_conjTranspose, conjTranspose_conjTranspose, Complex.star_def,
    map_div₀, Complex.conj_conj, Complex.conj_ofReal]
  rw [neg_sub]

theorem translate_conjTranspose_mul_self (n : ℕ) (amplitude : ℂ) :
    (translate n amplitude)ᴴ * translate n amplitude = 1 := by
  have h := Matrix.exp_add_of_commute ℂ (-(translateGen n amplitude))
    (translateGen n amplitude) (Commute.neg_left (Commute.refl _))
  rw [neg_add_cancel, NormedSpace.exp_zero] at h
  rw [translate, ← Matrix.exp_conjTranspose, translateGen_conjTranspose]
  exact h.symm

theorem translate_mul_conjTranspose_self (n : ℕ) (amplitude : ℂ) :
    translate n amplitude * (translate n amplitude)ᴴ = 1 := by
  have h := Matrix.exp_add_of_commute ℂ (translateGen n amplitude)
    (-(translateGen n amplitude)) (Commute.neg_right (Commute.refl _))
  rw [add_neg_cancel, NormedSpace.exp_zero] at h
  rw [translate, ← Matrix.exp_conjTranspose, translateGen_conjTranspose]
  exact h.symm

theorem phase_conj_mul_self (phi : ℝ) : conj (phase phi) * phase phi = 1 := by
  rw [phase, ← Complex.exp_conj, ← Complex.exp_add]
  have : conj (Complex.I * (phi : ℂ)) + Complex.I * (phi : ℂ) = 0 := by
    simp [Complex.ext_iff]
  rw [this, Complex.exp_zero]

end

noncomputable section

/-- `Kraus[0]`/`Kraus[1]` built in step 4 of `OscillatorGKP.quantum_circuit_v1`
(per batch element; `false` is outcome 0, `true` is outcome 1):
`1/2*(I ± phase(phi)*T(beta))`. -/
def kraus_v1 (n : ℕ) (beta : ℂ) (phi : ℝ) : Bool → Mat n
  | false => ((1 : ℂ)/2) • ((1 : Mat n) + phase phi • translate n beta)
  | true  => ((1 : ℂ)/2) • ((1 : Mat n) - phase phi • translate n beta)

/-- `Kraus[0]`/`Kraus[1]` built in step 4 of `OscillatorGKP.quantum_circuit_v2`:
`1/2*(adjoint(T(beta/2)) ± phase(phi)*T(beta/2))`. -/
def kraus_v2 (n : ℕ) (beta : ℂ) (phi : ℝ) : Bool → Mat n
  | false => ((1 : ℂ)/2) • ((translate n (beta/2))ᴴ + phase phi • translate n (beta/2))
  | true  => ((1 : ℂ)/2) • ((translate n (beta/2))ᴴ - phase phi • translate n (beta/2))

/-- `chunk1` of `OscillatorGKP.quantum_circuit_v3`, written with
`U = T(beta/2)` (so `Uᴴ = T(-beta/2)`) and `V = T(epsilon/2)`. -/
def chunk1 {n : ℕ} (U V : Mat n) : Mat n :=
  Complex.I • (Uᴴ * (V * U)) - Complex.I • (Uᴴ * (Vᴴ * U))
    + Uᴴ * (Vᴴ * Uᴴ) + Uᴴ * (V * Uᴴ)

/-- `chunk2` of `OscillatorGKP.quantum_circuit_v3`. -/
def chunk2 {n : ℕ} (U V : Mat n) : Mat n :=
  Complex.I • (U * (Vᴴ * Uᴴ)) - Complex.I • (U * (V * Uᴴ))
    + U * (Vᴴ * U) + U * (V * U)

/-- `Kraus[0]`/`Kraus[1]` built in step 4 of `OscillatorGKP.quantum_circuit_v3`:
`1/4*(chunk1 ± phase(phi)*chunk2)`. -/
def kraus_v3 (n : ℕ) (beta epsilon : ℂ) (phi : ℝ) : Bool → Mat n
  | false => ((1 : ℂ)/4) • (chunk1 (translate n (beta/2)) (translate n (epsilon/2))
      + phase phi • chunk2 (translate n (beta/2)) (translate n (epsilon/2)))
  | true  => ((1 : ℂ)/4) • (chunk1 (translate n (beta/2)) (translate n (epsilon/2))
      - phase phi • chunk2 (translate n (beta/2)) (translate n (epsilon/2)))

theorem pm_conjTranspose_sum {n : ℕ} (A B : Mat n) :
    (A + B)ᴴ * (A + B) + (A - B)ᴴ * (A - B)
      = (2 : ℂ) • (Aᴴ * A) + (2 : ℂ) • (Bᴴ * B) := by
  simp only [conjTranspose_add, conjTranspose_sub, add_mul, mul_add, sub_mul, mul_sub,
    two_smul]
  abel

theorem chunk1_factor {n : ℕ} (U V : Mat n) :
    chunk1 U V = Uᴴ * ((Complex.I • (V - Vᴴ)) * U + (V + Vᴴ) * Uᴴ) := by
  simp only [chunk1, mul_add, add_mul, sub_mul, mul_sub, smul_mul_assoc,
    mul_smul_comm, smul_sub, smul_add, mul_assoc]
  abel

theorem chunk2_factor {n : ℕ} (U V : Mat n) :
    chunk2 U V = U * ((-(Complex.I • (V - Vᴴ))) * Uᴴ + (V + Vᴴ) * U) := by
  simp only [chunk2, mul_add, add_mul, sub_mul, mul_sub, neg_mul, mul_neg,
    smul_mul_assoc, mul_smul_comm, smul_sub, smul_add, smul_neg, mul_assoc]
  abel

theorem phase_star_mul_self (phi : ℝ) : star (phase phi) * phase phi = 1 :=
  phase_conj_mul_self phi

theorem sc_comm {n : ℕ} (V : Mat n) (hV : Vᴴ * V = 1) (hV' : V * Vᴴ = 1) :
    (Complex.I • (V - Vᴴ)) * (V + Vᴴ) = (V + Vᴴ) * (Complex.I • (V - Vᴴ)) := by
  rw [smul_mul_assoc, mul_smul_comm]
  congr 1
  simp only [sub_mul, mul_sub, add_mul, mul_add, hV, hV']
  abel

theorem s_sq_add_c_sq {n : ℕ} (V : Mat n) (hV : Vᴴ * V = 1) (hV' : V * Vᴴ = 1) :
    (Complex.I • (V - Vᴴ)) * (Complex.I • (V - Vᴴ)) + (V + Vᴴ) * (V + Vᴴ)
      = (4 : ℂ) • 1 := by
  rw [smul_mul_assoc, mul_smul_comm, smul_smul, Complex.I_mul_I, neg_one_smul]
  simp only [sub_mul, mul_sub, add_mul, mul_add, hV, hV']
  have h4 : (4 : ℂ) • (1 : Mat n) = 1 + 1 + 1 + 1 := by
    have : (4 : ℂ) = 1 + 1 + 1 + 1 := by norm_num
    rw [this, add_smul, add_smul, add_smul, one_smul]
  rw [h4]
  abel

theorem smulI_sub_herm {n : ℕ} (V : Mat n) :
    (Complex.I • (V - Vᴴ))ᴴ = Complex.I • (V - Vᴴ) := by
  rw [conjTranspose_smul, conjTranspose_sub, conjTranspose_conjTranspose,
    Complex.star_def, Complex.conj_I, neg_smul, ← smul_neg, neg_sub]

theorem add_conjTranspose_herm {n : ℕ} (V : Mat n) : (V + Vᴴ)ᴴ = V + Vᴴ := by
  rw [conjTranspose_add, conjTranspose_conjTranspose, add_comm]

theorem quad_assembly {n : ℕ} (U S C : Mat n)
    (hU : Uᴴ * U = 1) (hU' : U * Uᴴ = 1) (hS : Sᴴ = S) (hC : Cᴴ = C)
    (hSC : S * C = C * S) (hS2C2 : S * S + C * C = (4 : ℂ) • 1) :
    (Uᴴ * (S * U + C * Uᴴ))ᴴ * (Uᴴ * (S * U + C * Uᴴ))
      + (U * (-S * Uᴴ + C * U))ᴴ * (U * (-S * Uᴴ + C * U)) = (8 : ℂ) • 1 := by
  have cU : ∀ X : Mat n, U * (Uᴴ * X) = X := fun X => by
    rw [← mul_assoc, hU', one_mul]
  have cU' : ∀ X : Mat n, Uᴴ * (U * X) = X := fun X => by
    rw [← mul_assoc, hU, one_mul]
  have swap : ∀ X : Mat n, S * (C * X) = C * (S * X) := fun X => by
    rw [← mul_assoc, hSC, mul_assoc]
  have hXl : (S * U + C * Uᴴ)ᴴ = Uᴴ * S + U * C := by
    rw [conjTranspose_add, conjTranspose_mul, conjTranspose_mul,
      conjTranspose_conjTranspose, hS, hC]
  have hXr : (-S * Uᴴ + C * U)ᴴ = -(U * S) + Uᴴ * C := by
    simp only [conjTranspose_add, conjTranspose_mul, conjTranspose_neg,
      conjTranspose_conjTranspose, hS, hC, mul_neg, neg_mul]
  have step1 : (Uᴴ * (S * U + C * Uᴴ))ᴴ * (Uᴴ * (S * U + C * Uᴴ))
      + (U * (-S * Uᴴ + C * U))ᴴ * (U * (-S * Uᴴ + C * U))
      = (Uᴴ * S + U * C) * (S * U + C * Uᴴ)
        + (-(U * S) + Uᴴ * C) * (-S * Uᴴ + C * U) := by
    rw [conjTranspose_mul, conjTranspose_mul, conjTranspose_conjTranspose,
      mul_assoc, mul_assoc, cU, cU', hXl, hXr]
  have expand : (Uᴴ * S + U * C) * (S * U + C * Uᴴ)
        + (-(U * S) + Uᴴ * C) * (-S * Uᴴ + C * U)
      = (Uᴴ * (S * (S * U)) + Uᴴ * (C * (C * U)))
        + (U * (S * (S * Uᴴ)) + U * (C * (C * Uᴴ)))
        + (Uᴴ * (S * (C * Uᴴ)) - Uᴴ * (C * (S * Uᴴ)))
        + (U * (C * (S * U)) - U * (S * (C * U))) := by
    simp only [add_mul, mul_add, neg_mul, mul_neg, neg_neg, mul_assoc]
    abel
  have c1 : Uᴴ * (S * (C * Uᴴ)) - Uᴴ * (C * (S * Uᴴ)) = 0 := by
    rw [swap, sub_self]
  have c2 : U * (C * (S * U)) - U * (S * (C * U)) = 0 := by
    rw [swap, sub_self]
  have p1 : Uᴴ * (S * (S * U)) + Uᴴ * (C * (C * U)) = (4 : ℂ) • 1 := by
    have h : Uᴴ * (S * (S * U)) + Uᴴ * (C * (C * U))
        = Uᴴ * ((S * S + C * C) * U) := by
      rw [add_mul, mul_add, mul_assoc, mul_assoc]
    rw [h, hS2C2, smul_mul_assoc, one_mul, mul_smul_comm, hU]
  have p2 : U * (S * (S * Uᴴ)) + U * (C * (C * Uᴴ)) = (4 : ℂ) • 1 := by
    have h : U * (S * (S * Uᴴ)) + U * (C * (C * Uᴴ))
        = U * ((S * S + C * C) * Uᴴ) := by
      rw [add_mul, mul_add, mul_assoc, mul_assoc]
    rw [h, hS2C2, smul_mul_assoc, one_mul, mul_smul_comm, hU']
  rw [step1, expand, c1, c2, p1, p2, add_zero, add_zero, ← add_smul]
  norm_num

theorem chunks_conjTranspose_sum {n : ℕ} (U V : Mat n)
    (hU : Uᴴ * U = 1) (hU' : U * Uᴴ = 1) (hV : Vᴴ * V = 1) (hV' : V * Vᴴ = 1) :
    (chunk1 U V)ᴴ * chunk1 U V + (chunk2 U V)ᴴ * chunk2 U V = (8 : ℂ) • 1 := by
  rw [chunk1_factor, chunk2_factor]
  have h := quad_assembly U (Complex.I • (V - Vᴴ)) (V + Vᴴ) hU hU'
    (smulI_sub_herm V) (add_conjTranspose_herm V) (sc_comm V hV hV')
    (s_sq_add_c_sq V hV hV')
  exact h

theorem pm_scaled_sum {n : ℕ} (x c : ℂ) (P T : Mat n) (hc : star c * c = 1) :
    (x • (P + c • T))ᴴ * (x • (P + c • T)) + (x • (P - c • T))ᴴ * (x • (P - c • T))
      = (star x * x * 2) • (Pᴴ * P + Tᴴ * T) := by
  simp only [conjTranspose_smul, smul_mul_assoc, mul_smul_comm, smul_smul]
  rw [← smul_add, pm_conjTranspose_sum]
  simp only [conjTranspose_smul, smul_mul_assoc, mul_smul_comm, smul_smul, hc, one_smul]
  simp only [smul_add, smul_smul]
  ring_nf
  rw [show x * star x * c * star c * 2 = x * star x * 2 * (star c * c) by ring, hc,
    mul_one]

/-- C2: for each circuit variant (v1, v2, v3) and all action parameters
`beta`, `phi` (and `epsilon` for v3), the two measurement Kraus operators
built in step 4 satisfy the completeness relation
`Kraus[0]ᴴ·Kraus[0] + Kraus[1]ᴴ·Kraus[1] = I` (here proved exactly, which is
stronger than "up to the precision of the matrix exponential"). -/
theorem gkp_C2_completeness (n : ℕ) (beta epsilon : ℂ) (phi : ℝ) :
    ((kraus_v1 n beta phi false)ᴴ * kraus_v1 n beta phi false
        + (kraus_v1 n beta phi true)ᴴ * kraus_v1 n beta phi true = 1)
    ∧ ((kraus_v2 n beta phi false)ᴴ * kraus_v2 n beta phi false
        + (kraus_v2 n beta phi true)ᴴ * kraus_v2 n beta phi true = 1)
    ∧ ((kraus_v3 n beta epsilon phi false)ᴴ * kraus_v3 n beta epsilon phi false
        + (kraus_v3 n beta epsilon phi true)ᴴ * kraus_v3 n beta epsilon phi true
          = 1) := by
  refine ⟨?_, ?_, ?_⟩
  · rw [show kraus_v1 n beta phi false
          = ((1 : ℂ)/2) • ((1 : Mat n) + phase phi • translate n beta) from rfl,
      show kraus_v1 n beta phi true
          = ((1 : ℂ)/2) • ((1 : Mat n) - phase phi • translate n beta) from rfl,
      pm_scaled_sum ((1 : ℂ)/2) (phase phi) 1 (translate n beta)
        (phase_star_mul_self phi),
      conjTranspose_one, one_mul, translate_conjTranspose_mul_self]
    rw [← two_smul ℂ (1 : Mat n), smul_smul]
    have : star ((1 : ℂ)/2) * ((1 : ℂ)/2) * 2 * 2 = 1 := by simp
    rw [this, one_smul]
  · rw [show kraus_v2 n beta phi false
          = ((1 : ℂ)/2) • ((translate n (beta/2))ᴴ
              + phase phi • translate n (beta/2)) from rfl,
      show kraus_v2 n beta phi true
          = ((1 : ℂ)/2) • ((translate n (beta/2))ᴴ
              - phase phi • translate n (beta/2)) from rfl,
      pm_scaled_sum ((1 : ℂ)/2) (phase phi) ((translate n (beta/2))ᴴ)
        (translate n (beta/2)) (phase_star_mul_self phi),
      conjTranspose_conjTranspose, translate_mul_conjTranspose_self,
      translate_conjTranspose_mul_self]
    rw [← two_smul ℂ (1 : Mat n), smul_smul]
    have : star ((1 : ℂ)/2) * ((1 : ℂ)/2) * 2 * 2 = 1 := by simp
    rw [this, one_smul]
  · rw [show kraus_v3 n beta epsilon phi false
          = ((1 : ℂ)/4) • (chunk1 (translate n (beta/2)) (translate n (epsilon/2))
              + phase phi • chunk2 (translate n (beta/2))
                  (translate n (epsilon/2))) from rfl,
      show kraus_v3 n beta epsilon phi true
          = ((1 : ℂ)/4) • (chunk1 (translate n (beta/2)) (translate n (epsilon/2))
              - phase phi • chunk2 (translate n (beta/2))
                  (translate n (epsilon/2))) from rfl,
      pm_scaled_sum ((1 : ℂ)/4) (phase phi)
        (chunk1 (translate n (beta/2)) (translate n (epsilon/2)))
        (chunk2 (translate n (beta/2)) (translate n (epsilon/2)))
        (phase_star_mul_self phi),
      chunks_conjTranspose_sum (translate n (beta/2)) (translate n (epsilon/2))
        (translate_conjTranspose_mul_self n (beta/2))
        (translate_mul_conjTranspose_self n (beta/2))
        (translate_conjTranspose_mul_self n (epsilon/2))
        (translate_mul_conjTranspose_self n (epsilon/2)),
      smul_smul]
    have : star ((1 : ℂ)/4) * ((1 : ℂ)/4) * 2 * 8 = 1 := by
      rw [show star ((1 : ℂ)/4) = (1 : ℂ)/4 by simp]
      norm_num
    rw [this, one_smul]

theorem gen_pair_commute {n : ℕ} (p q r s : ℂ) (X Y : Mat n) (h1 : p * s = r * q) :
    (p • X - q • Y) * (r • X - s • Y) = (r • X - s • Y) * (p • X - q • Y) := by
  simp only [sub_mul, mul_sub, smul_mul_assoc, mul_smul_comm, smul_sub, smul_smul]
  rw [mul_comm r p, mul_comm s q, show r * q = p * s from h1.symm,
    show s * p = q * r by rw [mul_comm s p, h1, mul_comm r q]]

theorem translateGen_add (n : ℕ) (a b : ℂ) :
    translateGen n a + translateGen n b = translateGen n (a + b) := by
  simp only [translateGen, map_add, add_div, add_smul]
  abel

theorem translateGen_commute_of_im_eq_zero (n : ℕ) (a b : ℂ)
    (h : (a * conj b).im = 0) :
    Commute (translateGen n a) (translateGen n b) := by
  have key : a * conj b = b * conj a := by
    have hc : conj (a * conj b) = a * conj b := Complex.conj_eq_iff_im.mpr h
    rw [← hc]
    simp [mul_comm]
  show translateGen n a * translateGen n b = translateGen n b * translateGen n a
  unfold translateGen
  exact gen_pair_commute _ _ _ _ _ _ (by rw [div_mul_div_comm, div_mul_div_comm, key])

/-- C5 (amended): whenever `Im(a·conj(b)) = 0` the displacement composition
law `translate(a)·translate(b) = translate(a+b)·exp(i·Im(a·conj(b)))` holds
exactly for the truncated operators (the phase factor is then `1`); with a
nonzero phase it fails at finite truncation (see the counterexample). -/
theorem gkp_C5_composition (n : ℕ) (a b : ℂ) (h : (a * conj b).im = 0) :
    translate n a * translate n b
      = Complex.exp (Complex.I * ((a * conj b).im : ℂ)) • translate n (a + b) := by
  rw [h, Complex.ofReal_zero, mul_zero, Complex.exp_zero, one_smul]
  have hexp := Matrix.exp_add_of_commute ℂ (translateGen n a) (translateGen n b)
    (translateGen_commute_of_im_eq_zero n a b h)
  rw [translateGen_add] at hexp
  rw [translate, translate, translate]
  exact hexp.symm

theorem gkp_C5_composition_witness :
    ((1 : ℂ) * conj (1 : ℂ)).im = 0 ∧
      translate 2 1 * translate 2 1
        = Complex.exp (Complex.I * (((1 : ℂ) * conj (1 : ℂ)).im : ℂ))
            • translate 2 (1 + 1) :=
  ⟨by simp, gkp_C5_composition 2 1 1 (by simp)⟩

theorem annihilation_one_dim : annihilation 1 = 0 := by
  ext i j
  fin_cases i
  fin_cases j
  simp [annihilation]

theorem creation_one_dim : creation 1 = 0 := by
  rw [creation_eq_conjTranspose, annihilation_one_dim, conjTranspose_zero]

theorem translate_one_dim (x : ℂ) : translate 1 x = 1 := by
  have hgen : translateGen 1 x = 0 := by
    rw [translateGen, annihilation_one_dim, creation_one_dim, smul_zero, smul_zero,
      sub_zero]
  rw [translate, hgen, NormedSpace.exp_zero]

/-- C5 (counterexample): at truncation `N = 1` with `a = π`, `b = −i`
(so `Im(a·conj(b)) = π`), the two sides of the claimed composition law differ
at entry `(0,0)` by exactly `2`, far beyond any floating tolerance such as
`1e-6`. -/
theorem gkp_C5_counterexample :
    Complex.abs ((translate 1 (Real.pi : ℂ) * translate 1 (-Complex.I)) 0 0
        - (Complex.exp (Complex.I * ((((Real.pi : ℂ) * conj (-Complex.I)).im : ℝ) : ℂ))
            • translate 1 ((Real.pi : ℂ) + -Complex.I)) 0 0) = 2
    ∧ (1 : ℝ)/1000000 < 2 := by
  constructor
  · rw [translate_one_dim, translate_one_dim, translate_one_dim, mul_one]
    have him : (((Real.pi : ℂ) * conj (-Complex.I)).im : ℝ) = Real.pi := by
      simp
    rw [him]
    rw [Matrix.smul_apply, Matrix.one_apply_eq, smul_eq_mul, mul_one]
    rw [mul_comm Complex.I _, Complex.exp_pi_mul_I]
    norm_num
  · norm_num

end

noncomputable section Measurement

/-- `collapsed[i]` in `GKP.measurement`: `batch_dot(Kraus[i], psi)`,
per batch element a matrix-vector product. -/
def measCollapsed (n : ℕ) (Kraus : Bool → Mat n) (psi : Fin n → ℂ) (i : Bool) :
    Fin n → ℂ :=
  (Kraus i).mulVec psi

/-- `p[i]` in `GKP.measurement`: the real part of
`batch_dot(conj(collapsed[i]), collapsed[i])`. -/
def measP (n : ℕ) (Kraus : Bool → Mat n) (psi : Fin n → ℂ) (i : Bool) : ℝ :=
  (∑ j, conj (measCollapsed n Kraus psi i j) * measCollapsed n Kraus psi i j).re

/-- The Bernoulli parameter `p[1]/(p[0]+p[1])` passed to
`tfp.distributions.Bernoulli` in `GKP.measurement` (probability of
outcome 1), per batch element. -/
def measProb (n : ℕ) (Kraus : Bool → Mat n) (psi : Fin n → ℂ) : ℝ :=
  measP n Kraus psi true / (measP n Kraus psi false + measP n Kraus psi true)

/-- The state returned by `GKP.measurement` given the sampled outcome `o`
(`mask` in the code): `collapsed[0]*(1-mask) + collapsed[1]*mask`. -/
def measState (n : ℕ) (Kraus : Bool → Mat n) (psi : Fin n → ℂ) (o : Bool) :
    Fin n → ℂ :=
  fun j => measCollapsed n Kraus psi false j * (1 - (if o then 1 else 0))
    + measCollapsed n Kraus psi true j * (if o then 1 else 0)

/-- The observation returned by `GKP.measurement`: `1 - 2*obs`, cast to a
float; outcome 0 maps to `+1`, outcome 1 maps to `-1`. -/
def measObs (o : Bool) : ℝ :=
  1 - 2 * (if o then 1 else 0)

theorem measP_eq_sum_normSq (n : ℕ) (Kraus : Bool → Mat n) (psi : Fin n → ℂ)
    (i : Bool) :
    measP n Kraus psi i = ∑ j, Complex.normSq ((Kraus i).mulVec psi j) := by
  rw [measP, Complex.re_sum]
  refine Finset.sum_congr rfl fun j _ => ?_
  rw [measCollapsed, ← Complex.normSq_eq_conj_mul_self, Complex.ofReal_re]

theorem measState_eq_collapsed (n : ℕ) (Kraus : Bool → Mat n) (psi : Fin n → ℂ)
    (o : Bool) :
    measState n Kraus psi o = measCollapsed n Kraus psi o := by
  funext j
  cases o <;> simp [measState]

/-- C1 (amended): `measurement` selects the realized branch's unnormalized
candidate and returns it **without** renormalizing: the returned state equals
`Kraus[o]·psi` and its squared norm equals the realized (unnormalized) branch
probability `p[o]`, not 1 in general. -/
theorem gkp_C1_measurement_returns_unnormalized (n : ℕ) (Kraus : Bool → Mat n)
    (psi : Fin n → ℂ) (o : Bool) :
    measState n Kraus psi o = (Kraus o).mulVec psi
    ∧ ∑ j, Complex.normSq (measState n Kraus psi o j) = measP n Kraus psi o := by
  constructor
  · rw [measState_eq_collapsed, measCollapsed]
  · rw [measState_eq_collapsed, measCollapsed, measP_eq_sum_normSq]

/-- The concrete input of the C1 counterexample: the exactly complete
two-outcome Kraus set `K0 = K1 = (1/\u221a2)\u00b7I` at `N = 1`. -/
def cexKraus1 : Bool → Mat 1 :=
  fun _ => (((Real.sqrt 2)⁻¹ : ℝ) : ℂ) • 1

/-- The concrete input of the C1 counterexample: the unit-norm state `(1)`. -/
def cexPsi1 : Fin 1 → ℂ :=
  fun _ => 1

/-- C1 (counterexample): for the unit-norm (hence nonzero) input `cexPsi1`
and the exactly complete two-outcome Kraus set `cexKraus1`, the state
returned by `measurement` has squared norm `1/2` for either sampled outcome,
violating the claimed unit-norm (within `1e-6`) invariant. -/
theorem gkp_C1_counterexample :
    (∑ j, Complex.normSq (cexPsi1 j)) = 1
    ∧ ((cexKraus1 false)ᴴ * cexKraus1 false
        + (cexKraus1 true)ᴴ * cexKraus1 true = 1)
    ∧ (∀ o : Bool,
        ∑ j, Complex.normSq (measState 1 cexKraus1 cexPsi1 o j) = 1/2)
    ∧ (1 : ℝ)/2 < 1 - 1/1000000 := by
  have hhalf : (Real.sqrt 2)⁻¹ * (Real.sqrt 2)⁻¹ = 1/2 := by
    rw [← mul_inv, Real.mul_self_sqrt (by norm_num : (2:ℝ) ≥ 0)]
    norm_num
  refine ⟨by simp [cexPsi1], ?_, ?_, by norm_num⟩
  · rw [show cexKraus1 false = (((Real.sqrt 2)⁻¹ : ℝ) : ℂ) • 1 from rfl,
      show cexKraus1 true = (((Real.sqrt 2)⁻¹ : ℝ) : ℂ) • 1 from rfl]
    rw [conjTranspose_smul, conjTranspose_one]
    rw [smul_mul_assoc, mul_smul_comm, smul_smul, one_mul, ← add_smul]
    rw [Complex.star_def, Complex.conj_ofReal, ← Complex.ofReal_mul, hhalf]
    rw [show (((1:ℝ)/2 : ℝ) : ℂ) + (((1:ℝ)/2 : ℝ) : ℂ) = 1 by
      rw [← Complex.ofReal_add]
      norm_num, one_smul]
  · intro o
    rw [measState_eq_collapsed, measCollapsed,
      show cexKraus1 o = (((Real.sqrt 2)⁻¹ : ℝ) : ℂ) • 1 from rfl,
      smul_mulVec_assoc, one_mulVec]
    simp [cexPsi1, Complex.normSq_apply, hhalf]

/-- C4: the Bernoulli parameter computed by `measurement` equals
`p1/(p0+p1)` with `p_i` the squared norm of `Kraus[i]·psi` (per batch
element), and the sampled outcome is remapped to the float `+1` for
outcome 0 and `-1` for outcome 1. -/
theorem gkp_C4_measurement_distribution (n : ℕ) (Kraus : Bool → Mat n)
    (psi : Fin n → ℂ) :
    measProb n Kraus psi
      = (∑ j, Complex.normSq ((Kraus true).mulVec psi j))
        / ((∑ j, Complex.normSq ((Kraus false).mulVec psi j))
            + ∑ j, Complex.normSq ((Kraus true).mulVec psi j))
    ∧ measObs false = 1 ∧ measObs true = -1 := by
  refine ⟨?_, by norm_num [measObs], by norm_num [measObs]⟩
  rw [measProb, measP_eq_sum_normSq, measP_eq_sum_normSq]

end Measurement

noncomputable section KrausBuilder

/-- `Kraus[0]` as built by the loop in `GKP.init_monte_carlo_sim`: start from
`I - 1j*Hamiltonian*dt`, then subtract `1/2 * matmul(c, c, adjoint_a=True) * dt`
for each collapse operator `c` in order. -/
def krausZeroLoop (n : ℕ) (H : Mat n) (c_ops : List (Mat n)) (dt : ℝ) : Mat n :=
  c_ops.foldl (fun K c => K - ((1 : ℂ)/2 * (dt : ℂ)) • (cᴴ * c))
    (1 - (Complex.I * (dt : ℂ)) • H)

/-- `Kraus[i+1] = sqrt(dt) * c_ops[i]` as built by the loop in
`GKP.init_monte_carlo_sim`. -/
def krausJumpLoop (n : ℕ) (c_ops : List (Mat n)) (dt : ℝ) : List (Mat n) :=
  c_ops.map (fun c => ((Real.sqrt dt : ℝ) : ℂ) • c)

/-- The full Kraus dictionary of `GKP.init_monte_carlo_sim`, as the list
indexed `0, 1, ..., len(c_ops)`. -/
def krausMap (n : ℕ) (H : Mat n) (c_ops : List (Mat n)) (dt : ℝ) : List (Mat n) :=
  krausZeroLoop n H c_ops dt :: krausJumpLoop n c_ops dt

/-- `Kraus_tf[i] = tf.stack([op]*batch_size)`: each operator replicated
identically along the batch dimension. -/
def krausBatched (n B : ℕ) (H : Mat n) (c_ops : List (Mat n)) (dt : ℝ) :
    List (Fin B → Mat n) :=
  (krausMap n H c_ops dt).map (fun op _ => op)

/-- The spec's closed form for the zeroth Kraus operator:
`K0 = I - i·H·dt - ½·Σ_k (c_kᴴ·c_k)·dt`. -/
def krausZeroSpec (n : ℕ) (H : Mat n) (c_ops : List (Mat n)) (dt : ℝ) : Mat n :=
  1 - Complex.I • ((dt : ℂ) • H)
    - ((1 : ℂ)/2) • ((dt : ℂ) • (c_ops.map (fun c => cᴴ * c)).sum)

theorem foldl_sub_smul {n : ℕ} (l : List (Mat n)) (x : ℂ) (init : Mat n) :
    l.foldl (fun K c => K - x • (cᴴ * c)) init
      = init - x • (l.map (fun c => cᴴ * c)).sum := by
  induction l generalizing init with
  | nil => simp
  | cons a t ih => simp [ih, smul_add, sub_sub]

theorem krausZeroLoop_eq_spec (n : ℕ) (H : Mat n) (c_ops : List (Mat n)) (dt : ℝ) :
    krausZeroLoop n H c_ops dt = krausZeroSpec n H c_ops dt := by
  rw [krausZeroLoop, foldl_sub_smul, krausZeroSpec, smul_smul, smul_smul]

/-- C3: the Kraus-map builder constructs exactly
`K0 = I - i·H·dt - ½·Σ(c_kᴴ·c_k)·dt` and `K_{k+1} = √dt · c_k`, and each
operator is replicated identically (constant in the batch index) along the
batch dimension. -/
theorem gkp_C3_kraus_builder (n B : ℕ) (H : Mat n) (c_ops : List (Mat n))
    (dt : ℝ) :
    (krausMap n H c_ops dt)[0]? = some (krausZeroSpec n H c_ops dt)
    ∧ (∀ k : ℕ, (krausMap n H c_ops dt)[k+1]?
        = c_ops[k]?.map (fun c => ((Real.sqrt dt : ℝ) : ℂ) • c))
    ∧ (∀ i : ℕ, ∀ b b' : Fin B,
        ((krausBatched n B H c_ops dt)[i]?).map (fun op => op b)
          = ((krausBatched n B H c_ops dt)[i]?).map (fun op => op b')) := by
  refine ⟨?_, ?_, ?_⟩
  · rw [krausMap, List.getElem?_cons_zero, krausZeroLoop_eq_spec]
  · intro k
    rw [krausMap, List.getElem?_cons_succ, krausJumpLoop, List.getElem?_map]
  · intro i b b'
    rw [krausBatched, List.getElem?_map, Option.map_map, Option.map_map]
    rfl

end KrausBuilder

section Configuration

/-- The initialization modes accepted by the `GKP.init` setter. -/
inductive InitMode
  | vac | random | Xp | Xm | Yp | Ym | Zp | Zm
deriving DecidableEq

/-- The list of reward-mode names accepted by the `GKP.reward_mode` setter. -/
def rewardModeNames : List String :=
  ["zero", "pauli", "stabilizers", "mixed"]

/-- `GKP.reward_mode` setter: the membership `assert` and the vacuum check
both run inside a `try` whose bare `except` raises
`ValueError('Reward mode not supported.')`; a successful call binds exactly
the requested mode. -/
def setRewardMode (init : InitMode) (mode : String) : Except String String :=
  if mode ∈ rewardModeNames then
    if mode = "pauli" ∧ init = InitMode.vac then
      Except.error "Reward mode not supported."
    else Except.ok mode
  else Except.error "Reward mode not supported."

/-- `GKP.__init__` restricted to the `init`/`reward_mode` configuration:
defaults `init='vac'`, `reward_mode='stabilizers'` are overwritten by the
kwargs, each assignment going through the property setter; a setter
exception aborts construction. -/
def constructEnv (kwargs_init : Option InitMode) (kwargs_reward : Option String) :
    Except String (InitMode × String) :=
  let init1 := kwargs_init.getD InitMode.vac
  match setRewardMode init1 (kwargs_reward.getD "stabilizers") with
  | Except.ok m => Except.ok (init1, m)
  | Except.error e => Except.error e

/-- C6: requesting `reward_mode='pauli'` with `init='vac'` fails at the
setter call itself with the raised error; construction therefore fails, and
a successful setter call always stores exactly the requested mode (never a
silent fallback). -/
theorem gkp_C6_pauli_vac_rejected :
    setRewardMode InitMode.vac "pauli" = Except.error "Reward mode not supported."
    ∧ constructEnv none (some "pauli")
        = Except.error "Reward mode not supported."
    ∧ (∀ init mode, setRewardMode init mode = Except.ok mode
        ∨ setRewardMode init mode = Except.error "Reward mode not supported.") := by
  refine ⟨by rfl, by rfl, ?_⟩
  intro init mode
  unfold setRewardMode
  split_ifs <;> simp

/-- A Python value passed to a size setter: an `int` or anything that is not
an `int` (for which `isinstance(size, int)` is false). -/
inductive PyVal
  | int (z : ℤ)
  | nonint
deriving DecidableEq

/-- The size-related state of a `GKP` instance: `_batch_size`, `_N`, and
whether `code_map` exists (the code tables built by
`define_stabilizer_code`). -/
structure EnvSizes where
  batch_size : ℤ
  N : PyVal
  code_map_built : Bool
deriving DecidableEq

/-- `GKP.batch_size` setter: rejects any assignment once `code_map` exists,
otherwise accepts exactly positive integers; on an exception the stored
state is unchanged. Returns (state, raised error). -/
def setBatchSize (st : EnvSizes) (v : PyVal) : EnvSizes × Option String :=
  if st.code_map_built then
    (st, some "Cannot change batch_size after initialization.")
  else
    match v with
    | PyVal.int z =>
        if 0 < z then ({ st with batch_size := z }, none)
        else (st, some "Batch size should be positive integer.")
    | PyVal.nonint => (st, some "Batch size should be positive integer.")

/-- `GKP.N` setter: rejects any assignment once `code_map` exists, otherwise
stores the value without further validation. -/
def setN (st : EnvSizes) (v : PyVal) : EnvSizes × Option String :=
  if st.code_map_built then
    (st, some "Cannot change N after initialization.")
  else
    ({ st with N := v }, none)

/-- C9: a non-positive or non-integer batch size is rejected with an error
(state unchanged); once the code tables are built, any assignment to
`batch_size` or `N` raises immediately with the stored values unchanged;
and a valid assignment stores exactly the requested value (no silent
default). -/
theorem gkp_C9_size_setters (st : EnvSizes) (v : PyVal) :
    (st.code_map_built = true →
        setBatchSize st v
            = (st, some "Cannot change batch_size after initialization.")
        ∧ setN st v = (st, some "Cannot change N after initialization."))
    ∧ (∀ z : ℤ, st.code_map_built = false → z ≤ 0 →
        setBatchSize st (PyVal.int z)
          = (st, some "Batch size should be positive integer."))
    ∧ (st.code_map_built = false →
        setBatchSize st PyVal.nonint
          = (st, some "Batch size should be positive integer."))
    ∧ (∀ z : ℤ, st.code_map_built = false → 0 < z →
        setBatchSize st (PyVal.int z) = ({ st with batch_size := z }, none)) := by
  refine ⟨fun h => ?_, fun z h hz => ?_, fun h => ?_, fun z h hz => ?_⟩
  · constructor
    · simp [setBatchSize, h]
    · simp [setN, h]
  · simp only [setBatchSize, h, Bool.false_eq_true, if_false]
    rw [if_neg (not_lt.mpr hz)]
  · simp only [setBatchSize, h, Bool.false_eq_true, if_false]
  · simp only [setBatchSize, h, Bool.false_eq_true, if_false]
    rw [if_pos hz]

theorem gkp_C9_size_setters_witness :
    ((⟨1, PyVal.int 100, true⟩ : EnvSizes).code_map_built = true ∧
      (setBatchSize ⟨1, PyVal.int 100, true⟩ (PyVal.int 7)
          = (⟨1, PyVal.int 100, true⟩,
              some "Cannot change batch_size after initialization.")
        ∧ setN ⟨1, PyVal.int 100, true⟩ (PyVal.int 7)
          = (⟨1, PyVal.int 100, true⟩,
              some "Cannot change N after initialization.")))
    ∧ setBatchSize ⟨1, PyVal.int 100, false⟩ (PyVal.int 0)
        = (⟨1, PyVal.int 100, false⟩, some "Batch size should be positive integer.")
    ∧ setBatchSize ⟨1, PyVal.int 100, false⟩ PyVal.nonint
        = (⟨1, PyVal.int 100, false⟩, some "Batch size should be positive integer.")
    ∧ setBatchSize ⟨1, PyVal.int 100, false⟩ (PyVal.int 50)
        = (⟨50, PyVal.int 100, false⟩, none) :=
  ⟨⟨rfl, (gkp_C9_size_setters ⟨1, PyVal.int 100, true⟩ (PyVal.int 7)).1 rfl⟩,
    (gkp_C9_size_setters ⟨1, PyVal.int 100, false⟩ PyVal.nonint).2.1 0 rfl
      (by norm_num),
    (gkp_C9_size_setters ⟨1, PyVal.int 100, false⟩ PyVal.nonint).2.2.1 rfl,
    (gkp_C9_size_setters ⟨1, PyVal.int 100, false⟩ PyVal.nonint).2.2.2 50 rfl
      (by norm_num)⟩

/-- `np.random.randint(lo, hi)`: uniform over the integers `[lo, hi-1]`
(high end exclusive); an empty range raises `ValueError`. Modelled with an
explicit uniform source `u`. -/
def npRandint (lo hi : ℕ) (u : ℕ) : Option ℕ :=
  if lo < hi then some (lo + u % (hi - lo)) else none

/-- The episode-length resampling in `GKP._reset`:
`if self.max_episode_length: self.episode_length = np.random.randint(1, self.max_episode_length)`.
Python truthiness: both `None` and `0` skip the branch, leaving
`episode_length` unchanged. -/
def resetEpisodeLength (max_episode_length : Option ℕ) (episode_length : ℕ)
    (u : ℕ) : Option ℕ :=
  match max_episode_length with
  | none => some episode_length
  | some m => if m ≠ 0 then npRandint 1 m u else some episode_length

/-- C10 (counterexample): with `max_episode_length` configured (non-None)
but equal to `0`, `_reset` does **not** resample: the previous episode
length `20` is kept, which is not in `{1, ..., -1}` and not below the
configured maximum. -/
theorem gkp_C10_counterexample :
    resetEpisodeLength (some 0) 20 0 = some 20 ∧ ¬ (20 < 0) := by
  decide

/-- C10 (amended): whenever `max_episode_length = M` is truthy and `M ≥ 2`,
every reset resamples the episode length as `1 + u % (M-1)` from the uniform
source — uniformly distributed over `1, ..., M-1`, always strictly less than
`M` (and every value in that range is attained). -/
theorem gkp_C10_resample (M L u : ℕ) (hM : 2 ≤ M) :
    resetEpisodeLength (some M) L u = some (1 + u % (M - 1))
    ∧ 1 ≤ 1 + u % (M - 1)
    ∧ 1 + u % (M - 1) < M
    ∧ (∀ k, 1 ≤ k → k < M → ∃ v : ℕ, v < M - 1 ∧ 1 + v % (M - 1) = k) := by
  have hM0 : M ≠ 0 := by omega
  have hM1 : 1 < M := by omega
  have hpos : 0 < M - 1 := by omega
  refine ⟨?_, by omega, ?_, ?_⟩
  · rw [resetEpisodeLength, if_pos hM0, npRandint, if_pos hM1]
  · have := Nat.mod_lt u hpos
    omega
  · intro k hk1 hkM
    refine ⟨k - 1, by omega, ?_⟩
    rw [Nat.mod_eq_of_lt (by omega)]
    omega

theorem gkp_C10_resample_witness :
    2 ≤ 5
    ∧ (resetEpisodeLength (some 5) 20 7 = some (1 + 7 % (5 - 1))
      ∧ 1 ≤ 1 + 7 % (5 - 1)
      ∧ 1 + 7 % (5 - 1) < 5
      ∧ (∀ k, 1 ≤ k → k < 5 → ∃ v : ℕ, v < 5 - 1 ∧ 1 + v % (5 - 1) = k)) :=
  ⟨by decide, gkp_C10_resample 5 20 7 (by decide)⟩

end Configuration

section Episode

/-- The episode bookkeeping mutated by `GKP._step` and `GKP._reset`. -/
structure StepState where
  elapsed : ℕ
  episode_ended : Bool
  episode_length : ℕ
deriving DecidableEq

/-- The bookkeeping transition of `GKP._step`:
`self._elapsed_steps += 1;
self._episode_ended = (self._elapsed_steps == self.episode_length)`. -/
def envStep (s : StepState) : StepState :=
  { elapsed := s.elapsed + 1
    episode_ended := decide (s.elapsed + 1 = s.episode_length)
    episode_length := s.episode_length }

/-- The bookkeeping part of `GKP._reset` with a fixed episode length
(`max_episode_length is None`): `self._episode_ended = False;
self._elapsed_steps = 0`. -/
def envReset (len : ℕ) : StepState :=
  ⟨0, false, len⟩

/-- C7: after reset the elapsed-step counter is `0` and the terminal flag is
cleared; after `k` step calls the counter equals `k`, and the terminal flag
is set exactly on the call on which the counter (first) equals the
configured episode length — i.e. iff `k = len` (for an actual step call,
`k > 0`). -/
theorem gkp_C7_termination (len k : ℕ) :
    (envReset len).elapsed = 0
    ∧ (envReset len).episode_ended = false
    ∧ (envStep^[k] (envReset len)).elapsed = k
    ∧ (envStep^[k] (envReset len)).episode_length = len
    ∧ ((envStep^[k] (envReset len)).episode_ended = true ↔ (k = len ∧ 0 < k)) := by
  refine ⟨rfl, rfl, ?_⟩
  induction k with
  | zero =>
      refine ⟨rfl, rfl, ?_⟩
      simp [envReset]
  | succ k ih =>
      obtain ⟨he, hl, _⟩ := ih
      rw [Function.iterate_succ_apply']
      refine ⟨by rw [envStep]; simp [he], by rw [envStep]; simp [hl], ?_⟩
      rw [envStep]
      simp only [he, hl, decide_eq_true_eq]
      constructor
      · intro h
        exact ⟨h, Nat.succ_pos k⟩
      · intro h
        exact h.1

end Episode

section HistoryHorizon

/-- One observation-history component right after `GKP._reset`: the list
`[fill]*H` (`fill` is the zero action from `tensor_spec.zero_spec_nest`, or
the measurement value `+1` from `tf.ones`). -/
def resetHistory {α : Type} (H : ℕ) (fill : α) : List α :=
  List.replicate H fill

/-- `GKP._step` appends the newest entry to a history component
(`self.history[a].append(...)`). -/
def stepHistory {α : Type} (h : List α) (x : α) : List α :=
  h ++ [x]

/-- The observation slice `val[-self.H:]` of a history component (Python
negative slicing; for `H = 0`, `val[-0:]` is the whole list). -/
def observationOf {α : Type} (H : ℕ) (h : List α) : List α :=
  if H = 0 then h else h.drop (h.length - H)

/-- A history component after a reset followed by steps appending `entries`
in chronological order. -/
def historyAfter {α : Type} (H : ℕ) (fill : α) (entries : List α) : List α :=
  entries.foldl stepHistory (resetHistory H fill)

theorem foldl_stepHistory {α : Type} (l init : List α) :
    l.foldl stepHistory init = init ++ l := by
  induction l generalizing init with
  | nil => simp
  | cons a t ih => simp [stepHistory, ih]

theorem historyAfter_eq {α : Type} (H : ℕ) (fill : α) (entries : List α) :
    historyAfter H fill entries = List.replicate H fill ++ entries := by
  rw [historyAfter, foldl_stepHistory, resetHistory]

theorem observation_after {α : Type} (H : ℕ) (hH : 0 < H) (fill : α)
    (entries : List α) :
    (observationOf H (historyAfter H fill entries)).length = H
    ∧ observationOf H (historyAfter H fill entries)
        = (List.replicate H fill ++ entries).drop entries.length := by
  rw [historyAfter_eq, observationOf, if_neg (Nat.pos_iff_ne_zero.mp hH)]
  have hlen : (List.replicate H fill ++ entries).length = H + entries.length := by
    simp
  rw [hlen, show H + entries.length - H = entries.length from by omega]
  refine ⟨?_, rfl⟩
  rw [List.length_drop, hlen]
  omega

/-- The per-step action/measurement entries appended by `GKP._step` for the
`v3` action keys: `(alpha, beta, epsilon, phi)` and the measurement
outcome. -/
structure StepEntry where
  alpha : ℝ × ℝ
  beta : ℝ × ℝ
  epsilon : ℝ × ℝ
  phi : ℝ
  msmt : ℝ

/-- All five observation-history components of the environment. -/
structure ObsHistories where
  alpha : List (ℝ × ℝ)
  beta : List (ℝ × ℝ)
  epsilon : List (ℝ × ℝ)
  phi : List ℝ
  msmt : List ℝ

/-- `GKP._reset` history initialization: zero actions, measurements `+1`. -/
def resetHistories (H : ℕ) : ObsHistories :=
  ⟨resetHistory H 0, resetHistory H 0, resetHistory H 0,
    resetHistory H 0, resetHistory H 1⟩

/-- `GKP._step` history update: append the new action components and the new
measurement outcome. -/
def stepHistories (h : ObsHistories) (e : StepEntry) : ObsHistories :=
  ⟨stepHistory h.alpha e.alpha, stepHistory h.beta e.beta,
    stepHistory h.epsilon e.epsilon, stepHistory h.phi e.phi,
    stepHistory h.msmt e.msmt⟩

/-- The history state after a reset followed by the given step entries. -/
def runHistories (H : ℕ) (steps : List StepEntry) : ObsHistories :=
  steps.foldl stepHistories (resetHistories H)

theorem runHistories_components (H : ℕ) (steps : List StepEntry) :
    (runHistories H steps).alpha
        = historyAfter H 0 (steps.map StepEntry.alpha)
    ∧ (runHistories H steps).beta
        = historyAfter H 0 (steps.map StepEntry.beta)
    ∧ (runHistories H steps).epsilon
        = historyAfter H 0 (steps.map StepEntry.epsilon)
    ∧ (runHistories H steps).phi
        = historyAfter H 0 (steps.map StepEntry.phi)
    ∧ (runHistories H steps).msmt
        = historyAfter H 1 (steps.map StepEntry.msmt) := by
  have aux : ∀ (l : List StepEntry) (h : ObsHistories),
      (l.foldl stepHistories h).alpha
          = (l.map StepEntry.alpha).foldl stepHistory h.alpha
      ∧ (l.foldl stepHistories h).beta
          = (l.map StepEntry.beta).foldl stepHistory h.beta
      ∧ (l.foldl stepHistories h).epsilon
          = (l.map StepEntry.epsilon).foldl stepHistory h.epsilon
      ∧ (l.foldl stepHistories h).phi
          = (l.map StepEntry.phi).foldl stepHistory h.phi
      ∧ (l.foldl stepHistories h).msmt
          = (l.map StepEntry.msmt).foldl stepHistory h.msmt := by
    intro l
    induction l with
    | nil => intro h; exact ⟨rfl, rfl, rfl, rfl, rfl⟩
    | cons e t ih => intro h; exact ih (stepHistories h e)
  exact aux steps (resetHistories H)

end HistoryHorizon

section HistoryTheorem

/-- C8: after reset and after every subsequent step, each observation
component (`alpha`, `beta`, `phi`, `msmt`, and `epsilon` for v3) holds
exactly `H` entries: the most recent `H` entries, in chronological order, of
the reset pre-fill (zero actions, measurement `+1`) followed by the applied
actions/measurements. -/
theorem gkp_C8_history_horizon (H : ℕ) (hH : 0 < H) (steps : List StepEntry) :
    ((observationOf H (runHistories H steps).alpha).length = H
      ∧ (observationOf H (runHistories H steps).beta).length = H
      ∧ (observationOf H (runHistories H steps).epsilon).length = H
      ∧ (observationOf H (runHistories H steps).phi).length = H
      ∧ (observationOf H (runHistories H steps).msmt).length = H)
    ∧ (observationOf H (runHistories H steps).alpha
        = (List.replicate H (0 : ℝ × ℝ) ++ steps.map StepEntry.alpha).drop
            steps.length
      ∧ observationOf H (runHistories H steps).beta
        = (List.replicate H (0 : ℝ × ℝ) ++ steps.map StepEntry.beta).drop
            steps.length
      ∧ observationOf H (runHistories H steps).epsilon
        = (List.replicate H (0 : ℝ × ℝ) ++ steps.map StepEntry.epsilon).drop
            steps.length
      ∧ observationOf H (runHistories H steps).phi
        = (List.replicate H (0 : ℝ) ++ steps.map StepEntry.phi).drop
            steps.length
      ∧ observationOf H (runHistories H steps).msmt
        = (List.replicate H (1 : ℝ) ++ steps.map StepEntry.msmt).drop
            steps.length) := by
  obtain ⟨ha, hb, he, hp, hm⟩ := runHistories_components H steps
  have A := observation_after H hH (0 : ℝ × ℝ) (steps.map StepEntry.alpha)
  have B := observation_after H hH (0 : ℝ × ℝ) (steps.map StepEntry.beta)
  have E := observation_after H hH (0 : ℝ × ℝ) (steps.map StepEntry.epsilon)
  have P := observation_after H hH (0 : ℝ) (steps.map StepEntry.phi)
  have M := observation_after H hH (1 : ℝ) (steps.map StepEntry.msmt)
  simp only [List.length_map] at A B E P M
  rw [ha, hb, he, hp, hm]
  exact ⟨⟨A.1, B.1, E.1, P.1, M.1⟩, A.2, B.2, E.2, P.2, M.2⟩

/-- The concrete three-step episode used to witness `gkp_C8_history_horizon`
at horizon `H = 2`. -/
def cexSteps : List StepEntry :=
  [⟨(1, 2), (3, 4), (5, 6), 7, 1⟩,
   ⟨(8, 9), (10, 11), (12, 13), 14, -1⟩,
   ⟨(15, 16), (17, 18), (19, 20), 21, 1⟩]

theorem gkp_C8_history_horizon_witness :
    0 < 2
    ∧ (    ((observationOf 2 (runHistories 2 cexSteps).alpha).length = 2
      ∧ (observationOf 2 (runHistories 2 cexSteps).beta).length = 2
      ∧ (observationOf 2 (runHistories 2 cexSteps).epsilon).length = 2
      ∧ (observationOf 2 (runHistories 2 cexSteps).phi).length = 2
      ∧ (observationOf 2 (runHistories 2 cexSteps).msmt).length = 2)
    ∧ (observationOf 2 (runHistories 2 cexSteps).alpha
        = (List.replicate 2 (0 : ℝ × ℝ) ++ cexSteps.map StepEntry.alpha).drop
            cexSteps.length
      ∧ observationOf 2 (runHistories 2 cexSteps).beta
        = (List.replicate 2 (0 : ℝ × ℝ) ++ cexSteps.map StepEntry.beta).drop
            cexSteps.length
      ∧ observationOf 2 (runHistories 2 cexSteps).epsilon
        = (List.replicate 2 (0 : ℝ × ℝ) ++ cexSteps.map StepEntry.epsilon).drop
            cexSteps.length
      ∧ observationOf 2 (runHistories 2 cexSteps).phi
        = (List.replicate 2 (0 : ℝ) ++ cexSteps.map StepEntry.phi).drop
            cexSteps.length
      ∧ observationOf 2 (runHistories 2 cexSteps).msmt
        = (List.replicate 2 (1 : ℝ) ++ cexSteps.map StepEntry.msmt).drop
            cexSteps.length)) :=
  ⟨by decide, gkp_C8_history_horizon 2 (by decide) cexSteps⟩

end HistoryTheorem

end GkpEnv
